import Mathlib

/-!
# The `string-regex` rule of revive (`rule/string-regex.go`)

A shallow embedding of the rule and the properties proved about it.

* Go strings are byte sequences: `GoString` is `List UInt8`, `len` is `List.length`
  and a slice expression `s[lo:hi]` is `sliceString`, which panics exactly where Go does.
* `panic` is the `error` side of `Except Panic`.
* The closure `onFailure`, which appends to the `failures` variable of `Apply`, is
  explicit state: every function that may call it takes the failure list and returns it.
* The packages `regexp` and `go/ast` are not part of the repository.  The regexp
  compiler is a parameter of the model (`RegexpCompiler`); `goRegexp` is a model of the
  standard one on a fragment of its syntax, used for the concrete scenarios.
  `Walk` follows `ast.Walk`.
-/

set_option linter.dupNamespace false
set_option linter.unusedVariables false

namespace Revive

/-! ## Go values -/

/-- A Go `string`: a sequence of bytes. -/
abbrev GoString := List UInt8

/-- The bytes (UTF-8) of a string constant of the source. -/
def bytes (s : String) : GoString := s.toList.flatMap String.utf8EncodeChar

/-- The verb `%d` of `fmt.Sprintf` for a non-negative `int`. -/
def itoa (n : Nat) : GoString := bytes (toString n)

/-- The ways in which the code panics. -/
inductive Panic where
  /-- `panic(msg)` with the string built by `fmt.Sprintf`. -/
  | message (text : GoString)
  /-- Run-time panic of an index expression `a[index]` with `len(a) = length`. -/
  | indexOutOfRange (index : Nat) (length : Nat)
  /-- Run-time panic of a slice expression `s[low:high]` with `len(s) = length`. -/
  | sliceBoundsOutOfRange (low : Int) (high : Int) (length : Nat)
  deriving DecidableEq, Repr

/-- The slice expression `s[low:high]` on a string: Go requires
`0 ≤ low ≤ high ≤ len(s)` and panics otherwise. -/
def sliceString (s : GoString) (low high : Int) : Except Panic GoString :=
  if 0 ≤ low ∧ low ≤ high ∧ high ≤ (s.length : Int) then
    .ok ((s.drop low.toNat).take (high.toNat - low.toNat))
  else
    .error (.sliceBoundsOutOfRange low high s.length)

/-- A dynamically typed value (`interface{}`), as the configuration loader or a Go caller
can supply it in `lint.Arguments`.  `stringSlice` is a value of static type `[]string`,
`slice` one of type `[]interface{}`: they are different dynamic types. -/
inductive Value where
  | nil
  | bool (b : Bool)
  | int (n : Int)
  | string (s : GoString)
  | stringSlice (xs : List GoString)
  | slice (xs : List Value)
  /-- A value of any other dynamic type (a float, a map, a struct, ...). -/
  | other (id : Nat)

/-- The type `lint.Arguments`, that is `[]interface{}`. -/
abbrev Arguments := List Value

/-! ## Package `regexp` -/

/-- A compiled regular expression `*regexp.Regexp`: `expr` is the source text as passed
to `Compile`, `prog` decides whether a text contains a match. -/
structure Regexp where
  expr : GoString
  prog : GoString → Bool

/-- The method `(*Regexp).String`: the source text used to compile the expression. -/
def Regexp.String (re : Regexp) : GoString := re.expr

/-- The method `(*Regexp).Match`: whether the byte slice contains any match. -/
def Regexp.Match (re : Regexp) (b : GoString) : Bool := re.prog b

/-- The parser and compiler behind `regexp.Compile`: `none` is a syntax error. -/
abbrev RegexpCompiler := GoString → Option (GoString → Bool)

/-- The function `regexp.Compile`; `none` stands for a non-nil `error`. -/
def regexp.Compile (compiler : RegexpCompiler) (expr : GoString) : Option Regexp :=
  match compiler expr with
  | none => none
  | some prog => some { expr := expr, prog := prog }

/-! ### The standard compiler on a fragment of its syntax

`goRegexp` follows `regexp/syntax.Parse` with the flags of `regexp.Compile` (`syntax.Perl`)
on ASCII patterns built from literals, `\` before a non-alphanumeric character, `.`,
`^`, `$`, bracket classes of characters and ranges, groups `( )`, `|`, and the
repetitions `*`, `+`, `?` (each optionally followed by the non-greedy `?`).  A pattern
that uses anything else (`(?`, `{`, `[:`, an escape of a letter or digit, a byte above
127) is rejected.  Matching is over ASCII text, one byte per character. -/

/-- A parsed regular expression. -/
inductive Re where
  | emptyMatch
  | literal (c : UInt8)
  | anyCharNotNL
  | charClass (negated : Bool) (ranges : List (UInt8 × UInt8))
  | beginText
  | endText
  | concat (a b : Re)
  | alternate (a b : Re)
  | star (a : Re)
  | plus (a : Re)
  | quest (a : Re)
  deriving DecidableEq, Repr

/-- What remains to be matched: it receives whether the position is still the beginning
of the text, and the rest of the text. -/
abbrev Re.Cont := Bool → GoString → Bool

/-- At most `n` further iterations of `step`, each consuming at least one byte, then `k`. -/
def Re.starLoop (step : Bool → GoString → Re.Cont → Bool) :
    Nat → Bool → GoString → Re.Cont → Bool
  | 0, atStart, s, k => k atStart s
  | n + 1, atStart, s, k =>
    step atStart s (fun b t => decide (t.length < s.length) && Re.starLoop step n b t k)
      || k atStart s

/-- Whether `re` matches a beginning of `s` such that `k` accepts what follows. -/
def Re.run : Re → Bool → GoString → Re.Cont → Bool
  | .emptyMatch, atStart, s, k => k atStart s
  | .literal c, _, s, k =>
    match s with
    | [] => false
    | x :: t => x == c && k false t
  | .anyCharNotNL, _, s, k =>
    match s with
    | [] => false
    | x :: t => x != 10 && k false t
  | .charClass negated ranges, _, s, k =>
    match s with
    | [] => false
    | x :: t =>
      (ranges.any (fun r => decide (r.1 ≤ x) && decide (x ≤ r.2)) != negated) && k false t
  | .beginText, atStart, s, k => atStart && k atStart s
  | .endText, atStart, s, k => s.isEmpty && k atStart s
  | .concat a b, atStart, s, k => Re.run a atStart s (fun b1 t => Re.run b b1 t k)
  | .alternate a b, atStart, s, k => Re.run a atStart s k || Re.run b atStart s k
  | .star a, atStart, s, k => Re.starLoop (Re.run a) s.length atStart s k
  | .plus a, atStart, s, k =>
    Re.run a atStart s (fun b t => Re.starLoop (Re.run a) t.length b t k)
  | .quest a, atStart, s, k => Re.run a atStart s k || k atStart s

/-- Whether `re` matches at some position of the text. -/
def Re.search (re : Re) : Bool → GoString → Bool
  | atStart, [] => re.run atStart [] (fun _ _ => true)
  | atStart, x :: t => re.run atStart (x :: t) (fun _ _ => true) || Re.search re false t

/-- Whether the text contains a match of `re`. -/
def Re.matchBytes (re : Re) (b : GoString) : Bool := re.search true b

/-- The parse stack between two parentheses: the alternatives already closed by `|` and
the items of the concatenation being read, both most recent first. -/
structure Frame where
  alts : List Re
  cur : List Re

/-- The concatenation of the items. -/
def concatAll : List Re → Re
  | [] => .emptyMatch
  | [x] => x
  | x :: rest => .concat x (concatAll rest)

/-- The alternation of the items. -/
def alternateAll : List Re → Re
  | [] => .emptyMatch
  | [x] => x
  | x :: rest => .alternate x (alternateAll rest)

/-- The expression that a frame stands for when its group ends. -/
def Frame.close (f : Frame) : Re :=
  alternateAll ((concatAll f.cur.reverse :: f.alts).reverse)

/-- One more item of the current concatenation. -/
def Frame.push (f : Frame) (re : Re) : Frame := { f with cur := re :: f.cur }

/-- ASCII letters and digits. -/
def isalnum (c : UInt8) : Bool :=
  (48 ≤ c && c ≤ 57) || (65 ≤ c && c ≤ 90) || (97 ≤ c && c ≤ 122)

/-- What follows a backslash: a non-alphanumeric ASCII character stands for itself. -/
def parseEscape : GoString → Option (UInt8 × GoString)
  | [] => none
  | c :: t => if c < 128 && !isalnum c then some (c, t) else none

/-- One character of a bracket class. -/
def parseClassChar : GoString → Option (UInt8 × GoString)
  | [] => none
  | c :: t =>
    if c == 92 then parseEscape t
    else if c < 128 then some (c, t) else none

/-- The items of a bracket class up to the closing `]`, which may be the first item. -/
def parseClass.loop : Nat → GoString → Bool → List (UInt8 × UInt8) →
    Option (List (UInt8 × UInt8) × GoString)
  | 0, _, _, _ => none
  | fuel + 1, t, first, cls =>
    if !first && t.head? == some 93 then some (cls, t.tail)
    else if t.take 2 == [91, 58] then none
    else
      match parseClassChar t with
      | none => none
      | some (lo, t1) =>
        match t1 with
        | 45 :: n :: t2 =>
          if n != 93 then
            match parseClassChar (n :: t2) with
            | none => none
            | some (hi, t3) =>
              if hi < lo then none else parseClass.loop fuel t3 false (cls ++ [(lo, hi)])
          else parseClass.loop fuel t1 false (cls ++ [(lo, lo)])
        | _ => parseClass.loop fuel t1 false (cls ++ [(lo, lo)])

/-- A bracket class, the opening `[` already read. -/
def parseClass (t : GoString) : Option (Re × GoString) :=
  let negated := t.head? == some 94
  let t1 := if negated then t.tail else t
  match parseClass.loop (t1.length + 1) t1 true [] with
  | none => none
  | some (cls, rest) => some (.charClass negated cls, rest)

/-- The main loop of the parser: `top` is the innermost open group, `stack` the groups
around it, `lastRepeat` whether the previous item was a repetition operator. -/
def parse.loop : Nat → GoString → Frame → List Frame → Bool → Option Re
  | 0, _, _, _, _ => none
  | fuel + 1, [], top, stack, _ => if stack.isEmpty then some top.close else none
  | fuel + 1, c :: t, top, stack, lastRepeat =>
    if c == 40 then
      if t.head? == some 63 then none
      else parse.loop fuel t { alts := [], cur := [] } (top :: stack) false
    else if c == 124 then
      parse.loop fuel t { alts := concatAll top.cur.reverse :: top.alts, cur := [] } stack false
    else if c == 41 then
      match stack with
      | [] => none
      | parent :: rest => parse.loop fuel t (parent.push top.close) rest false
    else if c == 94 then parse.loop fuel t (top.push .beginText) stack false
    else if c == 36 then parse.loop fuel t (top.push .endText) stack false
    else if c == 46 then parse.loop fuel t (top.push .anyCharNotNL) stack false
    else if c == 91 then
      match parseClass t with
      | none => none
      | some (cls, rest) => parse.loop fuel rest (top.push cls) stack false
    else if c == 42 || c == 43 || c == 63 then
      if lastRepeat then none
      else
        match top.cur with
        | [] => none
        | sub :: before =>
          let op : Re := if c == 42 then .star sub else if c == 43 then .plus sub else .quest sub
          parse.loop fuel (if t.head? == some 63 then t.tail else t)
            { top with cur := op :: before } stack true
    else if c == 123 then none
    else if c == 92 then
      match parseEscape t with
      | none => none
      | some (r, rest) => parse.loop fuel rest (top.push (.literal r)) stack false
    else if c < 128 then parse.loop fuel t (top.push (.literal c)) stack false
    else none

/-- The parser: every step reads at least one byte, so `len(s) + 1` steps are enough. -/
def parse (s : GoString) : Option Re :=
  parse.loop (s.length + 1) s { alts := [], cur := [] } [] false

/-- The standard compiler on the fragment. -/
def goRegexp : RegexpCompiler := fun expr =>
  match parse expr with
  | none => none
  | some re => some re.matchBytes

/-! ## Package `go/ast` -/

/-- The literal kinds of `go/token`. -/
inductive Token where
  | INT | FLOAT | IMAG | CHAR | STRING
  deriving DecidableEq, Repr

/-- A node of the syntax tree.  `BasicLit` is `*ast.BasicLit`; `Other` is a node of any
other type, with its non-nil children in the order in which `ast.Walk` walks them. -/
inductive Node where
  | BasicLit (ValuePos : Nat) (Kind : Token) (Value : GoString)
  | Other (id : Nat) (children : List Node)

/-- The part of `lint.File` that the rule reads. -/
structure File where
  AST : Node

/-- The type `lint.Failure`, with the fields that the rule sets. -/
structure Failure where
  Confidence : ℚ
  Failure : GoString
  Node : Node

/-! ## The rule -/

/-- The struct `stringRegexSubrule`; `ErrorMessage` is `none` for a nil `*string`. -/
structure stringRegexSubrule where
  Regexp : Regexp
  ErrorMessage : Option GoString

/-- The struct `lintStringRegexRule`; its field `onFailure` is the explicit failure list. -/
structure lintStringRegexRule where
  rules : List stringRegexSubrule

/-- The string assigned to `failure` in the body of the loop of `lintMessage`. -/
def lintMessage.failure (rule : stringRegexSubrule) : GoString :=
  match rule.ErrorMessage with
  | some errorMessage =>
    bytes "string literal doesn't match user defined regex (" ++ errorMessage ++ bytes ")"
  | none =>
    bytes "string literal doesn't match user defined regex /" ++ rule.Regexp.String ++ bytes "/"

/-- The loop `for _, rule := range w.rules` of `lintMessage`. -/
def lintMessage.loop (s : GoString) (node : Node) :
    List stringRegexSubrule → List Failure → List Failure
  | [], failures => failures
  | rule :: rest, failures =>
    if rule.Regexp.Match s then
      lintMessage.loop s node rest failures
    else
      lintMessage.loop s node rest
        (failures ++ [{ Confidence := 1, Failure := lintMessage.failure rule, Node := node }])

/-- The method `lintStringRegexRule.lintMessage`. -/
def lintStringRegexRule.lintMessage (w : lintStringRegexRule) (s : GoString) (node : Node)
    (failures : List Failure) : List Failure :=
  lintMessage.loop s node w.rules failures

/-- The method `lintStringRegexRule.Visit`; the node `none` is the nil node, the visitor
`none` the nil visitor. -/
def lintStringRegexRule.Visit (w : lintStringRegexRule) (node : Option Node)
    (failures : List Failure) : Except Panic (Option lintStringRegexRule × List Failure) :=
  match node with
  | some (.BasicLit pos .STRING value) =>
    match sliceString value 1 ((value.length : Int) - 1) with
    | .error p => .error p
    | .ok unquoted =>
      .ok (some w, w.lintMessage unquoted (.BasicLit pos .STRING value) failures)
  | _ => .ok (some w, failures)

/-- The loop `for i, obj := range g` of `parseArgument`, from index `i` on. -/
def parseArgument.loop (argNum : Nat) : List Value → Nat → List GoString →
    Except Panic (List GoString)
  | [], _, rule => .ok rule
  | obj :: g, i, rule =>
    match obj with
    | .string val => parseArgument.loop argNum g (i + 1) (rule ++ [val])
    | _ =>
      .error (.message (bytes "unable to parse argument " ++ itoa argNum ++
        bytes ", option " ++ itoa i))

/-- The method `lintStringRegexRule.parseArgument`. -/
def lintStringRegexRule.parseArgument (compiler : RegexpCompiler) (w : lintStringRegexRule)
    (argument : Value) (argNum : Nat) : Except Panic (Regexp × Option GoString) :=
  match argument with
  | .slice g =>
    match parseArgument.loop argNum g 0 [] with
    | .error p => .error p
    | .ok rule =>
      match rule with
      | [] => .error (.indexOutOfRange 0 0)
      | rule0 :: _ =>
        match sliceString rule0 1 ((rule0.length : Int) - 1) with
        | .error p => .error p
        | .ok body =>
          match regexp.Compile compiler body with
          | none =>
            .error (.message (bytes "unable to compile " ++ rule0 ++
              bytes " as regexp (argument " ++ itoa argNum ++ bytes ", option " ++
              itoa 0 ++ bytes ")"))
          | some regex => .ok (regex, if rule.length = 2 then rule[1]? else none)
  | _ => .error (.message (bytes "unable to parse argument " ++ itoa argNum))

/-- The loop `for i, argument := range arguments` of `parseArguments`, from index `i`. -/
def parseArguments.loop (compiler : RegexpCompiler) :
    List Value → Nat → lintStringRegexRule → Except Panic lintStringRegexRule
  | [], _, w => .ok w
  | argument :: arguments, i, w =>
    match w.parseArgument compiler argument i with
    | .error p => .error p
    | .ok (regex, errorMessage) =>
      parseArguments.loop compiler arguments (i + 1)
        { rules := w.rules ++ [{ Regexp := regex, ErrorMessage := errorMessage }] }

/-- The method `lintStringRegexRule.parseArguments`; the receiver after the call is the
result. -/
def lintStringRegexRule.parseArguments (compiler : RegexpCompiler) (w : lintStringRegexRule)
    (arguments : Arguments) : Except Panic lintStringRegexRule :=
  parseArguments.loop compiler arguments 0 w

mutual
/-- The function `ast.Walk` with a `lintStringRegexRule` as visitor. -/
def Walk (v : lintStringRegexRule) (node : Node) (failures : List Failure) :
    Except Panic (List Failure) :=
  match v.Visit (some node) failures with
  | .error p => .error p
  | .ok (none, failures) => .ok failures
  | .ok (some v, failures) =>
    match node with
    | .BasicLit _ _ _ =>
      match v.Visit none failures with
      | .error p => .error p
      | .ok (_, failures) => .ok failures
    | .Other _ children =>
      match walkList v children failures with
      | .error p => .error p
      | .ok failures =>
        match v.Visit none failures with
        | .error p => .error p
        | .ok (_, failures) => .ok failures
/-- The walk over a list of children: `for _, x := range list { Walk(v, x) }`. -/
def walkList (v : lintStringRegexRule) (list : List Node) (failures : List Failure) :
    Except Panic (List Failure) :=
  match list with
  | [] => .ok failures
  | x :: rest =>
    match Walk v x failures with
    | .error p => .error p
    | .ok failures => walkList v rest failures
end

/-- The method `StringRegexRule.Apply`. -/
def StringRegexRule.Apply (compiler : RegexpCompiler) (file : File) (arguments : Arguments) :
    Except Panic (List Failure) :=
  match lintStringRegexRule.parseArguments compiler { rules := [] } arguments with
  | .error p => .error p
  | .ok w => Walk w file.AST []

/-! ## Specification-side definitions -/

/-- The failure that `lintMessage` reports for `rule` at `node`. -/
def failureFor (node : Node) (rule : stringRegexSubrule) : Failure :=
  { Confidence := 1, Failure := lintMessage.failure rule, Node := node }

/-- The rules of the list, in order, whose pattern the text does not match. -/
def unmatched (rules : List stringRegexSubrule) (s : GoString) : List stringRegexSubrule :=
  rules.filter (fun rule => !rule.Regexp.Match s)

/-- A string without its first and its last byte. -/
def stripEnds (p : GoString) : GoString := p.tail.dropLast

/-- Whether the value is a string. -/
def Value.isString : Value → Bool
  | .string _ => true
  | _ => false

/-- The shape that the specification asks of an argument: a list of exactly one or
exactly two strings. -/
def Value.isOneOrTwoStrings : Value → Bool
  | .slice [.string _] => true
  | .slice [.string _, .string _] => true
  | _ => false

/-- Whether the argument is a non-empty generic list (`[]interface{}`) of strings. -/
def Value.isStringList : Value → Bool
  | .slice (x :: xs) => (x :: xs).all Value.isString
  | _ => false

/-- The first element of a list argument, when it is a string. -/
def Value.pattern? : Value → Option GoString
  | .slice (.string p :: _) => some p
  | _ => none

/-- Whether `parseArgument` rejects the argument with the given compiler: it is not a
non-empty generic list of strings, or its first string has fewer than two bytes, or what
is left of it without its first and last byte does not compile.  The number of strings
is not bounded: a list of three or more strings is not malformed in this sense. -/
def Value.malformed (compiler : RegexpCompiler) (a : Value) : Bool :=
  !a.isStringList ||
    match a.pattern? with
    | none => true
    | some p => decide (p.length < 2) || (compiler (stripEnds p)).isNone

/-- The arguments that `TestStringRegex` passes: each of the two is a `[]string`. -/
def testArguments : Arguments :=
  [.stringSlice [bytes "/^[A-Z]/", bytes "must start with a capital letter"],
   .stringSlice [bytes "/[^\\.]$/"]]

/-- The configuration of the scenario of the specification, as the configuration loader
supplies it: `[["/^[A-Z]/", "must start with a capital letter"], ["/[^.]$/"]]`. -/
def scenarioArguments : Arguments :=
  [.slice [.string (bytes "/^[A-Z]/"), .string (bytes "must start with a capital letter")],
   .slice [.string (bytes "/[^.]$/")]]

/-- A string literal at position `pos` with the given source text, quotes included. -/
def stringLit (pos : Nat) (source : String) : Node := .BasicLit pos .STRING (bytes source)

/-- The rule compiled from the first argument of the scenario. -/
def capitalRule : stringRegexSubrule :=
  { Regexp := { expr := bytes "^[A-Z]",
                prog := Re.matchBytes (.concat .beginText (.charClass false [(65, 90)])) },
    ErrorMessage := some (bytes "must start with a capital letter") }

/-- The rule compiled from the second argument of the scenario. -/
def periodRule : stringRegexSubrule :=
  { Regexp := { expr := bytes "[^.]$",
                prog := Re.matchBytes (.concat (.charClass true [(46, 46)]) .endText) },
    ErrorMessage := none }

/-- The visitor that `parseArguments` builds from the scenario configuration. -/
def scenarioVisitor : lintStringRegexRule := { rules := [capitalRule, periodRule] }

/-- The raw source text of a literal node, quotes included. -/
def Node.value : Node → GoString
  | .BasicLit _ _ value => value
  | .Other _ _ => []

mutual
/-- The string-literal nodes of a tree in depth-first order, parents before children and
children from left to right, each occurrence once. -/
def stringLiterals : Node → List Node
  | .BasicLit pos kind value => if kind = .STRING then [.BasicLit pos kind value] else []
  | .Other _ children => stringLiteralsList children
/-- The string-literal nodes of a list of trees. -/
def stringLiteralsList : List Node → List Node
  | [] => []
  | x :: rest => stringLiterals x ++ stringLiteralsList rest
end

/-- A tree as the Go parser builds it: the source text of every string literal has its
two quoting characters, so at least two bytes. -/
def Node.wellFormed (node : Node) : Bool :=
  (stringLiterals node).all (fun lit => decide (2 ≤ lit.value.length))

/-- The failures of one literal: what `lintMessage` emits on its text, the source text
without the quoting characters. -/
def literalFailures (w : lintStringRegexRule) (lit : Node) : List Failure :=
  w.lintMessage (stripEnds lit.value) lit []

/-- A file with three string literals and an integer literal, at two depths. -/
def sampleFile : File :=
  { AST := .Other 0 [stringLit 1 "\"Hello.\"",
      .Other 2 [.BasicLit 3 .INT (bytes "42"), stringLit 4 "\"hello.\""],
      stringLit 5 "\"Hello!\""] }

/-- A text without its first and its last character (Unicode code point). -/
def stripChars (s : String) : String := String.mk s.toList.tail.dropLast

/-! ## Lemmas on slicing and on the configuration -/

theorem sliceString_strip (s : GoString) (h : 2 ≤ s.length) :
    sliceString s 1 ((s.length : Int) - 1) = .ok (stripEnds s) := by
  have hc : (0 : Int) ≤ 1 ∧ (1 : Int) ≤ (s.length : Int) - 1
      ∧ (s.length : Int) - 1 ≤ (s.length : Int) := by omega
  have hn : ((s.length : Int) - 1).toNat - (1 : Int).toNat = s.length - 1 - 1 := by omega
  simp only [sliceString, hc, and_self, if_true, hn, stripEnds]
  rw [List.dropLast_eq_take, List.length_tail]
  simp

theorem sliceString_short (s : GoString) (h : s.length < 2) :
    sliceString s 1 ((s.length : Int) - 1)
      = .error (.sliceBoundsOutOfRange 1 ((s.length : Int) - 1) s.length) := by
  have hc : ¬ ((0 : Int) ≤ 1 ∧ (1 : Int) ≤ (s.length : Int) - 1
      ∧ (s.length : Int) - 1 ≤ (s.length : Int)) := by omega
  simp only [sliceString, hc, if_false]

theorem parseArgument_loop_strings (argNum : Nat) (strs : List GoString) :
    ∀ (i : Nat) (rule : List GoString),
      parseArgument.loop argNum (strs.map Value.string) i rule = .ok (rule ++ strs) := by
  induction strs with
  | nil => intro i rule; simp [parseArgument.loop]
  | cons s rest ih => intro i rule; simp [parseArgument.loop, ih]

theorem parseArgument_loop_error (argNum : Nat) (g : List Value) :
    ∀ (i : Nat) (rule : List GoString), g.all Value.isString = false →
      ∃ p, parseArgument.loop argNum g i rule = .error p := by
  induction g with
  | nil => intro i rule h; simp at h
  | cons v rest ih =>
    intro i rule h
    cases v with
    | string s =>
      have h2 : rest.all Value.isString = false := by simpa [Value.isString] using h
      simpa [parseArgument.loop] using ih (i + 1) (rule ++ [s]) h2
    | nil => exact ⟨_, rfl⟩
    | bool b => exact ⟨_, rfl⟩
    | int n => exact ⟨_, rfl⟩
    | stringSlice xs => exact ⟨_, rfl⟩
    | slice xs => exact ⟨_, rfl⟩
    | other n => exact ⟨_, rfl⟩

theorem all_isString_eq_map (g : List Value) (h : g.all Value.isString = true) :
    ∃ strs : List GoString, g = strs.map Value.string := by
  induction g with
  | nil => exact ⟨[], rfl⟩
  | cons v rest ih =>
    cases v with
    | string s =>
      have h2 : rest.all Value.isString = true := by simpa [Value.isString] using h
      obtain ⟨strs, hs⟩ := ih h2
      exact ⟨s :: strs, by simp [hs]⟩
    | nil => simp [Value.isString] at h
    | bool b => simp [Value.isString] at h
    | int n => simp [Value.isString] at h
    | stringSlice xs => simp [Value.isString] at h
    | slice xs => simp [Value.isString] at h
    | other n => simp [Value.isString] at h

/-- What `parseArgument` returns on a list of strings whose first has a body that
compiles. -/
theorem parseArgument_strings (compiler : RegexpCompiler) (w : lintStringRegexRule)
    (argNum : Nat) (p : GoString) (rest : List GoString) (prog : GoString → Bool)
    (hlen : 2 ≤ p.length) (hc : compiler (stripEnds p) = some prog) :
    w.parseArgument compiler (.slice ((p :: rest).map Value.string)) argNum
      = .ok ({ expr := stripEnds p, prog := prog },
          if (p :: rest).length = 2 then (p :: rest)[1]? else none) := by
  simp only [lintStringRegexRule.parseArgument, parseArgument_loop_strings, List.nil_append,
    sliceString_strip p hlen, regexp.Compile, hc]

theorem parseArgument_not_isStringList (compiler : RegexpCompiler) (w : lintStringRegexRule)
    (argNum : Nat) (a : Value) (h : a.isStringList = false) :
    ∃ p, w.parseArgument compiler a argNum = .error p := by
  cases a with
  | slice g =>
    cases g with
    | nil => exact ⟨_, rfl⟩
    | cons v rest =>
      have h2 : (v :: rest).all Value.isString = false := by simpa [Value.isStringList] using h
      obtain ⟨p, hp⟩ := parseArgument_loop_error argNum (v :: rest) 0 [] h2
      exact ⟨p, by simp only [lintStringRegexRule.parseArgument, hp]⟩
  | nil => exact ⟨_, rfl⟩
  | bool b => exact ⟨_, rfl⟩
  | int n => exact ⟨_, rfl⟩
  | string s => exact ⟨_, rfl⟩
  | stringSlice xs => exact ⟨_, rfl⟩
  | other n => exact ⟨_, rfl⟩

theorem parseArgument_malformed (compiler : RegexpCompiler) (w : lintStringRegexRule)
    (argNum : Nat) (a : Value) (h : a.malformed compiler = true) :
    ∃ p, w.parseArgument compiler a argNum = .error p := by
  by_cases hs : a.isStringList = false
  · exact parseArgument_not_isStringList compiler w argNum a hs
  · have hs2 : a.isStringList = true := by simpa using hs
    cases a with
    | slice g =>
      cases g with
      | nil => simp [Value.isStringList] at hs2
      | cons v rest =>
        obtain ⟨strs, hstrs⟩ := all_isString_eq_map (v :: rest) (by simpa [Value.isStringList] using hs2)
        cases strs with
        | nil => simp at hstrs
        | cons p more =>
          rw [hstrs] at h ⊢
          simp only [Value.malformed, Value.isStringList, List.map_cons, Value.pattern?] at h
          have hall : (Value.string p :: List.map Value.string more).all Value.isString = true := by
            rw [← List.map_cons, ← hstrs]; simpa [Value.isStringList] using hs2
          simp only [hall, Bool.not_true, Bool.false_or, Bool.or_eq_true, decide_eq_true_eq,
            Option.isNone_iff_eq_none] at h
          rcases h with h | h
          · simp only [lintStringRegexRule.parseArgument, parseArgument_loop_strings,
              List.nil_append, sliceString_short p h]
            exact ⟨_, rfl⟩
          · by_cases hl : p.length < 2
            · simp only [lintStringRegexRule.parseArgument, parseArgument_loop_strings,
                List.nil_append, sliceString_short p hl]
              exact ⟨_, rfl⟩
            · simp only [lintStringRegexRule.parseArgument, parseArgument_loop_strings,
                List.nil_append, sliceString_strip p (by omega), regexp.Compile, h]
              exact ⟨_, rfl⟩
    | nil => simp [Value.isStringList] at hs2
    | bool b => simp [Value.isStringList] at hs2
    | int n => simp [Value.isStringList] at hs2
    | string s => simp [Value.isStringList] at hs2
    | stringSlice xs => simp [Value.isStringList] at hs2
    | other n => simp [Value.isStringList] at hs2

theorem parseArguments_loop_error (compiler : RegexpCompiler) (arguments : List Value)
    (bad : Value) (hmem : bad ∈ arguments)
    (hbad : ∀ (w : lintStringRegexRule) (i : Nat), ∃ p, w.parseArgument compiler bad i = .error p) :
    ∀ (i : Nat) (w : lintStringRegexRule),
      ∃ p, parseArguments.loop compiler arguments i w = .error p := by
  induction arguments with
  | nil => simp at hmem
  | cons a rest ih =>
    intro i w
    cases hres : w.parseArgument compiler a i with
    | error p => exact ⟨p, by simp only [parseArguments.loop, hres]⟩
    | ok r =>
      have hne : bad ≠ a := by
        rintro rfl
        obtain ⟨p, hp⟩ := hbad w i
        rw [hp] at hres
        cases hres
      have hmem2 : bad ∈ rest := by
        rcases List.mem_cons.mp hmem with h | h
        · exact absurd h hne
        · exact h
      obtain ⟨p, hp⟩ := ih hmem2 (i + 1)
        { rules := w.rules ++ [{ Regexp := r.1, ErrorMessage := r.2 }] }
      exact ⟨p, by simp only [parseArguments.loop, hres, hp]⟩

/-! ## Lemmas on `lintMessage` -/

theorem lintMessage_loop_eq (s : GoString) (node : Node) (rules : List stringRegexSubrule) :
    ∀ failures : List Failure,
      lintMessage.loop s node rules failures
        = failures ++ (unmatched rules s).map (failureFor node) := by
  induction rules with
  | nil => intro failures; simp [lintMessage.loop, unmatched]
  | cons rule rest ih =>
    intro failures
    by_cases h : rule.Regexp.Match s = true
    · simp [lintMessage.loop, unmatched, h, ih]
    · simp [lintMessage.loop, unmatched, h, ih, failureFor]

theorem unmatched_eq_nil (rules : List stringRegexSubrule) (s : GoString)
    (h : ∀ rule ∈ rules, rule.Regexp.Match s = true) : unmatched rules s = [] := by
  simp only [unmatched, List.filter_eq_nil_iff]
  intro rule hr
  simp [h rule hr]

theorem unmatched_eq_self (rules : List stringRegexSubrule) (s : GoString)
    (h : ∀ rule ∈ rules, rule.Regexp.Match s = false) : unmatched rules s = rules := by
  simp only [unmatched, List.filter_eq_self]
  intro rule hr
  simp [h rule hr]

/-- C1. `lintMessage` appends to the failure list, in the order of the rules, one failure
for every rule that the text does not match and nothing for a rule that it matches; every
failure it emits has confidence 1 and refers to the node of the literal.  So it emits
nothing when the text matches every rule, and as many failures as there are rules when
the text matches none. -/
theorem lintMessage_emits_unmatched (w : lintStringRegexRule) (s : GoString) (node : Node)
    (failures : List Failure) :
    w.lintMessage s node failures = failures ++ (unmatched w.rules s).map (failureFor node)
    ∧ (∀ f ∈ (unmatched w.rules s).map (failureFor node), f.Confidence = 1 ∧ f.Node = node)
    ∧ ((∀ rule ∈ w.rules, rule.Regexp.Match s = true) →
        w.lintMessage s node failures = failures)
    ∧ ((∀ rule ∈ w.rules, rule.Regexp.Match s = false) →
        ∃ emitted, w.lintMessage s node failures = failures ++ emitted
          ∧ emitted.length = w.rules.length) := by
  have key := lintMessage_loop_eq s node w.rules failures
  refine ⟨key, ?_, ?_, ?_⟩
  · intro f hf
    obtain ⟨rule, _, rfl⟩ := List.mem_map.mp hf
    exact ⟨rfl, rfl⟩
  · intro h
    simp [lintStringRegexRule.lintMessage, key, unmatched_eq_nil _ _ h]
  · intro h
    refine ⟨(unmatched w.rules s).map (failureFor node), key, ?_⟩
    simp [unmatched_eq_self _ _ h]

/-! ## The configuration compiler -/

/-- C2. On the arguments of `TestStringRegex`, where each argument is a `[]string`, the
type assertion to `[]interface{}` fails: `parseArguments` panics with
"unable to parse argument 0" whatever the regexp compiler, and so does `Apply` on every
file; no rule is produced.  The same strings supplied as generic lists are accepted and
give the two rules `^[A-Z]`, with the custom message, and `[^\.]$`, without message. -/
theorem parseArguments_testArguments_panics :
    (∀ compiler : RegexpCompiler,
      lintStringRegexRule.parseArguments compiler { rules := [] } testArguments
        = .error (.message (bytes "unable to parse argument 0")))
    ∧ (∀ (compiler : RegexpCompiler) (file : File),
      StringRegexRule.Apply compiler file testArguments
        = .error (.message (bytes "unable to parse argument 0")))
    ∧ ∃ w, lintStringRegexRule.parseArguments goRegexp { rules := [] }
          [.slice [.string (bytes "/^[A-Z]/"),
                   .string (bytes "must start with a capital letter")],
           .slice [.string (bytes "/[^\\.]$/")]] = .ok w
        ∧ w.rules.map (fun rule => (rule.Regexp.String, rule.ErrorMessage))
          = [(bytes "^[A-Z]", some (bytes "must start with a capital letter")),
             (bytes "[^\\.]$", none)] :=
  ⟨fun _ => rfl, fun _ _ => rfl, _, rfl, rfl⟩

/-- C3, counterexample. A list of three strings is not a list of one or two strings, and
`parseArguments` accepts it: it produces one rule. -/
theorem parseArguments_accepts_three_strings :
    (Value.slice [.string (bytes "/a/"), .string (bytes "m"), .string (bytes "x")]).isOneOrTwoStrings
      = false
    ∧ ∃ w, lintStringRegexRule.parseArguments goRegexp { rules := [] }
        [.slice [.string (bytes "/a/"), .string (bytes "m"), .string (bytes "x")]] = .ok w
      ∧ w.rules.length = 1 :=
  ⟨rfl, _, rfl, rfl⟩

/-- C3, amended. If some argument is not a non-empty generic list of strings (it is not a
list, or it is an empty list, or one of its elements is not a string), `parseArguments`
panics and produces no rule list. -/
theorem parseArguments_rejects_non_string_list (compiler : RegexpCompiler)
    (w : lintStringRegexRule) (arguments : Arguments)
    (h : ∃ a ∈ arguments, a.isStringList = false) :
    ∃ p, w.parseArguments compiler arguments = .error p := by
  obtain ⟨a, hmem, ha⟩ := h
  exact parseArguments_loop_error compiler arguments a hmem
    (fun w i => parseArgument_not_isStringList compiler w i a ha) 0 w

theorem parseArguments_rejects_non_string_list_witness :
    (∃ a ∈ ([.slice [.string (bytes "/a/")], .slice [.string (bytes "/b/"), .int 42]] : Arguments),
        a.isStringList = false)
    ∧ ∃ p, lintStringRegexRule.parseArguments goRegexp { rules := [] }
        [.slice [.string (bytes "/a/")], .slice [.string (bytes "/b/"), .int 42]] = .error p :=
  ⟨⟨.slice [.string (bytes "/b/"), .int 42], by simp, rfl⟩,
   parseArguments_rejects_non_string_list goRegexp { rules := [] } _
     ⟨.slice [.string (bytes "/b/"), .int 42], by simp, rfl⟩⟩

set_option maxRecDepth 8000 in
/-- C8, counterexample. A list of three strings is not a list of one or two strings, so
it is malformed for the specification, and `Apply` does not abort on it: it walks the
file and returns a failure list. -/
theorem Apply_runs_on_three_strings :
    (Value.slice [.string (bytes "/a/"), .string (bytes "m"), .string (bytes "x")]).isOneOrTwoStrings
      = false
    ∧ StringRegexRule.Apply goRegexp { AST := .Other 0 [stringLit 1 "\"b\""] }
        [.slice [.string (bytes "/a/"), .string (bytes "m"), .string (bytes "x")]]
      = .ok [{ Confidence := 1,
               Failure := bytes "string literal doesn't match user defined regex /a/",
               Node := stringLit 1 "\"b\"" }]
    ∧ ¬ ∃ p, StringRegexRule.Apply goRegexp { AST := .Other 0 [stringLit 1 "\"b\""] }
        [.slice [.string (bytes "/a/"), .string (bytes "m"), .string (bytes "x")]]
      = .error p := by
  have h : StringRegexRule.Apply goRegexp { AST := .Other 0 [stringLit 1 "\"b\""] }
      [.slice [.string (bytes "/a/"), .string (bytes "m"), .string (bytes "x")]]
      = .ok [{ Confidence := 1,
               Failure := bytes "string literal doesn't match user defined regex /a/",
               Node := stringLit 1 "\"b\"" }] := rfl
  refine ⟨rfl, h, ?_⟩
  rintro ⟨p, hp⟩
  rw [h] at hp
  cases hp

/-- C8, amended. If some argument is one that `parseArgument` rejects (it is not a
non-empty generic list of strings, or its first string has fewer than two bytes, or the
body of its first string does not compile), `parseArguments` panics, and `Apply` panics
with the same configuration error on every file: no failure list is returned, whatever
the tree and however many earlier arguments were valid. -/
theorem Apply_aborts_on_malformed (compiler : RegexpCompiler) (arguments : Arguments)
    (h : ∃ a ∈ arguments, a.malformed compiler = true) :
    ∃ p, lintStringRegexRule.parseArguments compiler { rules := [] } arguments = .error p
      ∧ ∀ file : File, StringRegexRule.Apply compiler file arguments = .error p := by
  obtain ⟨a, hmem, ha⟩ := h
  obtain ⟨p, hp⟩ := parseArguments_loop_error compiler arguments a hmem
    (fun w i => parseArgument_malformed compiler w i a ha) 0 { rules := [] }
  refine ⟨p, hp, ?_⟩
  intro file
  have hp2 : lintStringRegexRule.parseArguments compiler { rules := [] } arguments
      = .error p := hp
  simp only [StringRegexRule.Apply, hp2]

theorem Apply_aborts_on_malformed_witness :
    (∃ a ∈ ([.slice [.string (bytes "/^[A-Z]/")],
              .slice [.string (bytes "/(/"), .string (bytes "balanced")]] : Arguments),
        a.malformed goRegexp = true)
    ∧ ∃ p, lintStringRegexRule.parseArguments goRegexp { rules := [] }
          [.slice [.string (bytes "/^[A-Z]/")],
            .slice [.string (bytes "/(/"), .string (bytes "balanced")]] = .error p
      ∧ ∀ file : File, StringRegexRule.Apply goRegexp file
          [.slice [.string (bytes "/^[A-Z]/")],
            .slice [.string (bytes "/(/"), .string (bytes "balanced")]] = .error p :=
  ⟨⟨.slice [.string (bytes "/(/"), .string (bytes "balanced")], by simp, by decide⟩,
   Apply_aborts_on_malformed goRegexp _
     ⟨.slice [.string (bytes "/(/"), .string (bytes "balanced")], by simp, by decide⟩⟩

/-! ## Messages -/

/-- C4. An argument that is a single string `p` of at least two bytes whose body
`stripEnds p` compiles yields a rule without custom message whose pattern source is that
body; on a text that the rule does not match, the only failure has the message
"string literal doesn't match user defined regex /body/", the delimiters stripped once.
For `p = "/" ++ body ++ "/"` the message ends with `p` itself. -/
theorem default_message_ends_with_pattern (compiler : RegexpCompiler)
    (w : lintStringRegexRule) (argNum : Nat) (p : GoString) (prog : GoString → Bool)
    (s : GoString) (node : Node) (failures : List Failure)
    (hlen : 2 ≤ p.length) (hc : compiler (stripEnds p) = some prog)
    (hs : prog s = false) :
    ∃ regex, w.parseArgument compiler (.slice [.string p]) argNum = .ok (regex, none)
      ∧ regex.String = stripEnds p
      ∧ lintStringRegexRule.lintMessage
          { rules := [{ Regexp := regex, ErrorMessage := none }] } s node failures
        = failures ++ [{ Confidence := 1,
                         Failure := bytes "string literal doesn't match user defined regex /"
                           ++ stripEnds p ++ bytes "/",
                         Node := node }]
      ∧ (∀ body, p = bytes "/" ++ body ++ bytes "/" →
          bytes "string literal doesn't match user defined regex /" ++ stripEnds p ++ bytes "/"
            = bytes "string literal doesn't match user defined regex " ++ p) := by
  refine ⟨{ expr := stripEnds p, prog := prog }, ?_, rfl, ?_, ?_⟩
  · have := parseArgument_strings compiler w argNum p [] prog hlen hc
    simpa using this
  · simp [lintStringRegexRule.lintMessage, lintMessage.loop, Regexp.Match, hs,
      lintMessage.failure, Regexp.String]
  · intro body hp
    have h1 : bytes "string literal doesn't match user defined regex /"
        = bytes "string literal doesn't match user defined regex " ++ bytes "/" := by decide
    have h2 : stripEnds p = body := by
      subst hp
      simp [stripEnds, bytes, String.utf8EncodeChar]
    rw [h2, h1, hp]
    simp

theorem default_message_ends_with_pattern_witness :
    ∃ regex, lintStringRegexRule.parseArgument goRegexp { rules := [] }
        (.slice [.string (bytes "/[^.]$/")]) 1 = .ok (regex, none)
      ∧ regex.String = stripEnds (bytes "/[^.]$/")
      ∧ lintStringRegexRule.lintMessage
          { rules := [{ Regexp := regex, ErrorMessage := none }] } (bytes "hello.")
          (stringLit 3 "\"hello.\"") []
        = [] ++ [{ Confidence := 1,
                   Failure := bytes "string literal doesn't match user defined regex /"
                     ++ stripEnds (bytes "/[^.]$/") ++ bytes "/",
                   Node := stringLit 3 "\"hello.\"" }]
      ∧ (∀ body, bytes "/[^.]$/" = bytes "/" ++ body ++ bytes "/" →
          bytes "string literal doesn't match user defined regex /"
              ++ stripEnds (bytes "/[^.]$/") ++ bytes "/"
            = bytes "string literal doesn't match user defined regex " ++ bytes "/[^.]$/") :=
  default_message_ends_with_pattern goRegexp { rules := [] } 1 (bytes "/[^.]$/")
    (Re.matchBytes (.concat (.charClass true [(46, 46)]) .endText)) (bytes "hello.")
    (stringLit 3 "\"hello.\"") [] (by decide) rfl (by decide)

set_option maxRecDepth 8000 in
/-- C5, counterexample. The rule `["/^[A-Z]/", "must match ^[A-Z]"]` has a custom
message, the text `hello` does not match it, and the failure message contains the
pattern source `^[A-Z]`. -/
theorem custom_message_may_contain_pattern :
    ∃ w rule f, lintStringRegexRule.parseArguments goRegexp { rules := [] }
        [.slice [.string (bytes "/^[A-Z]/"), .string (bytes "must match ^[A-Z]")]] = .ok w
      ∧ w.rules = [rule]
      ∧ rule.ErrorMessage = some (bytes "must match ^[A-Z]")
      ∧ rule.Regexp.Match (bytes "hello") = false
      ∧ w.lintMessage (bytes "hello") (stringLit 0 "\"hello\"") [] = [f]
      ∧ rule.Regexp.String <:+: f.Failure :=
  ⟨_, _, _, rfl, rfl, rfl, by decide, rfl,
    ⟨bytes "string literal doesn't match user defined regex (must match ", bytes ")",
      by decide⟩⟩

/-- C5, amended. For a rule with custom message `m` and a text that it does not match,
the failure reported is "string literal doesn't match user defined regex (m)" with
confidence 1: it contains `m` verbatim and depends on the rule through `m` only, the
pattern source is not written into it. -/
theorem custom_message_verbatim (w : lintStringRegexRule) (s : GoString) (node : Node)
    (failures : List Failure) (rule : stringRegexSubrule) (m : GoString)
    (hr : rule ∈ w.rules) (hm : rule.ErrorMessage = some m)
    (hs : rule.Regexp.Match s = false) :
    (∃ f ∈ w.lintMessage s node failures, f = failureFor node rule)
    ∧ failureFor node rule
        = { Confidence := 1,
            Failure := bytes "string literal doesn't match user defined regex (" ++ m ++ bytes ")",
            Node := node }
    ∧ m <:+: (failureFor node rule).Failure
    ∧ ∀ regex : Regexp, lintMessage.failure { Regexp := regex, ErrorMessage := some m }
        = (failureFor node rule).Failure := by
  have hmsg : lintMessage.failure rule
      = bytes "string literal doesn't match user defined regex (" ++ m ++ bytes ")" := by
    simp [lintMessage.failure, hm]
  refine ⟨⟨failureFor node rule, ?_, rfl⟩, ?_, ?_, ?_⟩
  · have key := lintMessage_loop_eq s node w.rules failures
    have : w.lintMessage s node failures
        = failures ++ (unmatched w.rules s).map (failureFor node) := key
    rw [this]
    apply List.mem_append_right
    apply List.mem_map_of_mem
    simp [unmatched, hr, hs]
  · simp [failureFor, hmsg]
  · exact ⟨bytes "string literal doesn't match user defined regex (", bytes ")", by
      simp [failureFor, hmsg]⟩
  · intro regex
    show _ = lintMessage.failure rule
    rw [hmsg]
    rfl

set_option maxRecDepth 8000 in
theorem custom_message_verbatim_witness :
    lintStringRegexRule.parseArguments goRegexp { rules := [] } scenarioArguments
      = .ok scenarioVisitor
    ∧ capitalRule ∈ scenarioVisitor.rules
    ∧ (∃ f ∈ scenarioVisitor.lintMessage (bytes "hello.") (stringLit 5 "\"hello.\"") [],
        f = failureFor (stringLit 5 "\"hello.\"") capitalRule)
    ∧ failureFor (stringLit 5 "\"hello.\"") capitalRule
      = { Confidence := 1,
          Failure := bytes "string literal doesn't match user defined regex ("
            ++ bytes "must start with a capital letter" ++ bytes ")",
          Node := stringLit 5 "\"hello.\"" } :=
  ⟨rfl, List.mem_cons_self _ _,
    (custom_message_verbatim scenarioVisitor (bytes "hello.") (stringLit 5 "\"hello.\"") []
      capitalRule (bytes "must start with a capital letter") (List.mem_cons_self _ _) rfl
      (by decide)).1,
    (custom_message_verbatim scenarioVisitor (bytes "hello.") (stringLit 5 "\"hello.\"") []
      capitalRule (bytes "must start with a capital letter") (List.mem_cons_self _ _) rfl
      (by decide)).2.1⟩

/-! ## The scenario of the specification -/

set_option maxRecDepth 8000 in
/-- C6, counterexample. With the scenario configuration, a file whose only string literal
is `"Hello"` yields the empty failure list, not a list of one failure. -/
theorem scenario_Hello_not_one_failure :
    StringRegexRule.Apply goRegexp { AST := .Other 0 [stringLit 1 "\"Hello\""] }
        scenarioArguments = .ok []
    ∧ ¬ ∃ f, StringRegexRule.Apply goRegexp { AST := .Other 0 [stringLit 1 "\"Hello\""] }
        scenarioArguments = .ok [f] := by
  have h : StringRegexRule.Apply goRegexp { AST := .Other 0 [stringLit 1 "\"Hello\""] }
      scenarioArguments = .ok [] := rfl
  refine ⟨h, ?_⟩
  rintro ⟨f, hf⟩
  rw [h] at hf
  cases hf

set_option maxRecDepth 8000 in
/-- C6, amended. The scenario configuration compiles to the two rules in order; visiting
the literal `"Hello"` adds no failure (it matches both rules), and visiting the literal
`"Hello."` adds exactly one failure, the one of the trailing-period rule with the default
message "string literal doesn't match user defined regex /[^.]$/". -/
theorem scenario_Hello_no_failure :
    lintStringRegexRule.parseArguments goRegexp { rules := [] } scenarioArguments
      = .ok scenarioVisitor
    ∧ (∀ (pos : Nat) (failures : List Failure),
        scenarioVisitor.Visit (some (stringLit pos "\"Hello\"")) failures
          = .ok (some scenarioVisitor, failures))
    ∧ (∀ (pos : Nat) (failures : List Failure),
        scenarioVisitor.Visit (some (stringLit pos "\"Hello.\"")) failures
          = .ok (some scenarioVisitor, failures ++
              [{ Confidence := 1,
                 Failure := bytes "string literal doesn't match user defined regex /[^.]$/",
                 Node := stringLit pos "\"Hello.\"" }])) :=
  ⟨rfl, fun _ _ => rfl, fun _ _ => rfl⟩

set_option maxRecDepth 8000 in
/-- C7. With the scenario configuration, visiting the literal `"hello."` adds exactly two
failures, first the one with the custom message of the capital-letter rule, then the one
with the default message of the trailing-period rule, each with confidence 1; `Apply` on
a file whose only string literal is `"hello."` returns these two failures. -/
theorem scenario_hello_period_two_failures :
    lintStringRegexRule.parseArguments goRegexp { rules := [] } scenarioArguments
      = .ok scenarioVisitor
    ∧ (∀ (pos : Nat) (failures : List Failure),
        scenarioVisitor.Visit (some (stringLit pos "\"hello.\"")) failures
          = .ok (some scenarioVisitor, failures ++
              [{ Confidence := 1,
                 Failure := bytes
                   "string literal doesn't match user defined regex (must start with a capital letter)",
                 Node := stringLit pos "\"hello.\"" },
               { Confidence := 1,
                 Failure := bytes "string literal doesn't match user defined regex /[^.]$/",
                 Node := stringLit pos "\"hello.\"" }]))
    ∧ (∀ (id pos : Nat),
        StringRegexRule.Apply goRegexp { AST := .Other id [stringLit pos "\"hello.\""] }
            scenarioArguments
          = .ok [{ Confidence := 1,
                   Failure := bytes
                     "string literal doesn't match user defined regex (must start with a capital letter)",
                   Node := stringLit pos "\"hello.\"" },
                 { Confidence := 1,
                   Failure := bytes "string literal doesn't match user defined regex /[^.]$/",
                   Node := stringLit pos "\"hello.\"" }]) := by
  refine ⟨rfl, ?_, fun _ _ => rfl⟩
  intro pos failures
  have hv : scenarioVisitor.Visit (some (stringLit pos "\"hello.\"")) failures
      = .ok (some scenarioVisitor,
          scenarioVisitor.lintMessage (bytes "hello.") (stringLit pos "\"hello.\"") failures) :=
    rfl
  have hl : scenarioVisitor.lintMessage (bytes "hello.") (stringLit pos "\"hello.\"") failures
      = failures ++ (unmatched scenarioVisitor.rules (bytes "hello.")).map
          (failureFor (stringLit pos "\"hello.\"")) :=
    lintMessage_loop_eq _ _ _ _
  rw [hv, hl]
  rfl

/-! ## The traversal -/

theorem Visit_nil (w : lintStringRegexRule) (failures : List Failure) :
    w.Visit none failures = .ok (some w, failures) := rfl

theorem Visit_other (w : lintStringRegexRule) (id : Nat) (children : List Node)
    (failures : List Failure) :
    w.Visit (some (.Other id children)) failures = .ok (some w, failures) := rfl

theorem Visit_not_string (w : lintStringRegexRule) (pos : Nat) (kind : Token)
    (value : GoString) (failures : List Failure) (h : kind ≠ .STRING) :
    w.Visit (some (.BasicLit pos kind value)) failures = .ok (some w, failures) := by
  cases kind with
  | STRING => exact absurd rfl h
  | INT => rfl
  | FLOAT => rfl
  | IMAG => rfl
  | CHAR => rfl

theorem Visit_string (w : lintStringRegexRule) (pos : Nat) (value : GoString)
    (failures : List Failure) (h : 2 ≤ value.length) :
    w.Visit (some (.BasicLit pos .STRING value)) failures
      = .ok (some w,
          w.lintMessage (stripEnds value) (.BasicLit pos .STRING value) failures) := by
  simp only [lintStringRegexRule.Visit, sliceString_strip value h]

theorem lintMessage_append (w : lintStringRegexRule) (s : GoString) (node : Node)
    (failures : List Failure) :
    w.lintMessage s node failures = failures ++ w.lintMessage s node [] := by
  have h1 : w.lintMessage s node failures
      = failures ++ (unmatched w.rules s).map (failureFor node) :=
    lintMessage_loop_eq s node w.rules failures
  have h2 : w.lintMessage s node []
      = [] ++ (unmatched w.rules s).map (failureFor node) :=
    lintMessage_loop_eq s node w.rules []
  rw [h1, h2, List.nil_append]

mutual
theorem Walk_eq (w : lintStringRegexRule) :
    ∀ (node : Node) (failures : List Failure), node.wellFormed = true →
      Walk w node failures
        = .ok (failures ++ (stringLiterals node).flatMap (literalFailures w))
  | .BasicLit pos kind value, failures, hwf => by
    by_cases hk : kind = .STRING
    · subst hk
      have hlen : 2 ≤ value.length := by
        simpa [Node.wellFormed, stringLiterals, Node.value] using hwf
      rw [Walk, Visit_string w pos value failures hlen]
      simp only [Visit_nil, stringLiterals, if_true, List.flatMap_cons, List.flatMap_nil,
        List.append_nil, literalFailures, Node.value]
      rw [lintMessage_append]
    · rw [Walk, Visit_not_string w pos kind value failures hk]
      simp [Visit_nil, stringLiterals, hk]
  | .Other id children, failures, hwf => by
    have hwf2 : (stringLiteralsList children).all
        (fun lit => decide (2 ≤ lit.value.length)) = true := by
      simpa [Node.wellFormed, stringLiterals] using hwf
    rw [Walk, Visit_other]
    simp only [walkList_eq w children failures hwf2, Visit_nil, stringLiterals]
theorem walkList_eq (w : lintStringRegexRule) :
    ∀ (list : List Node) (failures : List Failure),
      (stringLiteralsList list).all (fun lit => decide (2 ≤ lit.value.length)) = true →
      walkList w list failures
        = .ok (failures ++ (stringLiteralsList list).flatMap (literalFailures w))
  | [], failures, _ => by
    simp [walkList, stringLiteralsList]
  | x :: rest, failures, hwf => by
    have hx : x.wellFormed = true := by
      simp only [stringLiteralsList, List.all_append, Bool.and_eq_true] at hwf
      exact hwf.1
    have hrest : (stringLiteralsList rest).all
        (fun lit => decide (2 ≤ lit.value.length)) = true := by
      simp only [stringLiteralsList, List.all_append, Bool.and_eq_true] at hwf
      exact hwf.2
    rw [walkList, Walk_eq w x failures hx]
    simp only [walkList_eq w rest _ hrest, stringLiteralsList, List.flatMap_append,
      List.append_assoc]
end

mutual
theorem stringLiterals_are_strings :
    ∀ (node : Node), ∀ lit ∈ stringLiterals node,
      ∃ pos value, lit = .BasicLit pos .STRING value
  | .BasicLit pos kind value, lit, hmem => by
    by_cases hk : kind = .STRING
    · subst hk
      simp only [stringLiterals, if_true, List.mem_singleton] at hmem
      exact ⟨pos, value, hmem⟩
    · simp [stringLiterals, hk] at hmem
  | .Other id children, lit, hmem => by
    simp only [stringLiterals] at hmem
    exact stringLiteralsList_are_strings children lit hmem
theorem stringLiteralsList_are_strings :
    ∀ (list : List Node), ∀ lit ∈ stringLiteralsList list,
      ∃ pos value, lit = .BasicLit pos .STRING value
  | [], lit, hmem => by simp [stringLiteralsList] at hmem
  | x :: rest, lit, hmem => by
    simp only [stringLiteralsList, List.mem_append] at hmem
    rcases hmem with h | h
    · exact stringLiterals_are_strings x lit h
    · exact stringLiteralsList_are_strings rest lit h
end

theorem literalFailures_eq (w : lintStringRegexRule) (lit : Node) :
    literalFailures w lit
      = (unmatched w.rules (stripEnds lit.value)).map (failureFor lit) := by
  have h := lintMessage_loop_eq (stripEnds lit.value) lit w.rules []
  simpa [literalFailures, lintStringRegexRule.lintMessage] using h

theorem length_flatMap_literalFailures (w : lintStringRegexRule) (lits : List Node) :
    (lits.flatMap (literalFailures w)).length
      = (lits.map (fun lit => (unmatched w.rules (stripEnds lit.value)).length)).sum := by
  induction lits with
  | nil => simp
  | cons lit rest ih =>
    simp only [List.flatMap_cons, List.length_append, List.map_cons, List.sum_cons, ih,
      literalFailures_eq, List.length_map]

/-- C9. For a valid argument list, compiled to the visitor `w`, and a well-formed tree,
`Apply` returns the concatenation, over the string literals of the tree in the order of
the walk and each taken once, of the failures of that literal, which are the failures of
the rules it does not match in rule order; only string literals contribute.  So the
number of failures is the sum over the string literals of the number of rules that the
literal does not match. -/
theorem Apply_eq_concat_literalFailures (compiler : RegexpCompiler) (file : File)
    (arguments : Arguments) (w : lintStringRegexRule)
    (hargs : lintStringRegexRule.parseArguments compiler { rules := [] } arguments = .ok w)
    (hwf : file.AST.wellFormed = true) :
    StringRegexRule.Apply compiler file arguments
      = .ok ((stringLiterals file.AST).flatMap (literalFailures w))
    ∧ (∀ lit ∈ stringLiterals file.AST, ∃ pos value, lit = .BasicLit pos .STRING value)
    ∧ (∀ lit, literalFailures w lit
        = (unmatched w.rules (stripEnds lit.value)).map (failureFor lit))
    ∧ ((stringLiterals file.AST).flatMap (literalFailures w)).length
        = ((stringLiterals file.AST).map
            (fun lit => (unmatched w.rules (stripEnds lit.value)).length)).sum := by
  refine ⟨?_, stringLiterals_are_strings file.AST, literalFailures_eq w,
    length_flatMap_literalFailures w _⟩
  simp only [StringRegexRule.Apply, hargs, Walk_eq w file.AST [] hwf, List.nil_append]

set_option maxRecDepth 8000 in
theorem Apply_eq_concat_literalFailures_witness :
    lintStringRegexRule.parseArguments goRegexp { rules := [] } scenarioArguments
      = .ok scenarioVisitor
    ∧ sampleFile.AST.wellFormed = true
    ∧ stringLiterals sampleFile.AST
      = [stringLit 1 "\"Hello.\"", stringLit 4 "\"hello.\"", stringLit 5 "\"Hello!\""]
    ∧ StringRegexRule.Apply goRegexp sampleFile scenarioArguments
      = .ok ((stringLiterals sampleFile.AST).flatMap (literalFailures scenarioVisitor))
    ∧ StringRegexRule.Apply goRegexp sampleFile scenarioArguments
      = .ok [failureFor (stringLit 1 "\"Hello.\"") periodRule,
             failureFor (stringLit 4 "\"hello.\"") capitalRule,
             failureFor (stringLit 4 "\"hello.\"") periodRule] :=
  ⟨rfl, rfl, rfl,
    (Apply_eq_concat_literalFailures goRegexp sampleFile scenarioArguments scenarioVisitor
      rfl rfl).1, rfl⟩

/-- C10. For a string literal whose source text is `q ++ body ++ q`, `Visit` hands
exactly `body` to `lintMessage`: one byte is dropped at each end and nothing else
changes.  The extraction does not fail when the source text has at least two bytes.
Escape sequences are not interpreted: for the five bytes `"a\n"` the text is the three
bytes `a`, backslash, `n`, which is not `a` followed by a newline. -/
theorem Visit_hands_over_unquoted_text :
    (∀ (w : lintStringRegexRule) (pos : Nat) (q : UInt8) (body : GoString)
        (failures : List Failure),
        w.Visit (some (.BasicLit pos .STRING (q :: (body ++ [q])))) failures
          = .ok (some w,
              w.lintMessage body (.BasicLit pos .STRING (q :: (body ++ [q]))) failures))
    ∧ (∀ (w : lintStringRegexRule) (pos : Nat) (value : GoString) (failures : List Failure),
        2 ≤ value.length →
          w.Visit (some (.BasicLit pos .STRING value)) failures
            = .ok (some w,
                w.lintMessage (stripEnds value) (.BasicLit pos .STRING value) failures))
    ∧ (∀ (w : lintStringRegexRule) (pos : Nat) (failures : List Failure),
        w.Visit (some (stringLit pos "\"a\\n\"")) failures
          = .ok (some w, w.lintMessage [97, 92, 110] (stringLit pos "\"a\\n\"") failures))
    ∧ bytes "\"a\\n\"" = [34, 97, 92, 110, 34]
    ∧ ([97, 92, 110] : GoString) ≠ [97, 10] := by
  refine ⟨?_, ?_, ?_, by decide, by decide⟩
  · intro w pos q body failures
    have hlen : 2 ≤ (q :: (body ++ [q])).length := by simp
    have hs : stripEnds (q :: (body ++ [q])) = body := by simp [stripEnds]
    rw [Visit_string w pos _ failures hlen, hs]
  · intro w pos value failures h
    exact Visit_string w pos value failures h
  · intro w pos failures
    exact Visit_string w pos (bytes "\"a\\n\"") failures (by decide)

/-! ## Lemmas on the order of the configuration -/

theorem parseArgument_receiver (compiler : RegexpCompiler) (w v : lintStringRegexRule)
    (argument : Value) (argNum : Nat) :
    w.parseArgument compiler argument argNum = v.parseArgument compiler argument argNum :=
  rfl

theorem parseArgument_loop_first_non_string (argNum : Nat) (bad : Value) (rest : List Value)
    (hbad : bad.isString = false) (strs : List GoString) :
    ∀ (i : Nat) (rule : List GoString),
      parseArgument.loop argNum (strs.map Value.string ++ bad :: rest) i rule
        = .error (.message (bytes "unable to parse argument " ++ itoa argNum ++
            bytes ", option " ++ itoa (i + strs.length))) := by
  induction strs with
  | nil =>
    intro i rule
    cases bad with
    | string s => simp [Value.isString] at hbad
    | nil => rfl
    | bool b => rfl
    | int n => rfl
    | stringSlice xs => rfl
    | slice xs => rfl
    | other n => rfl
  | cons s more ih =>
    intro i rule
    have h := ih (i + 1) (rule ++ [s])
    have e : i + 1 + more.length = i + (s :: more).length := by
      simp only [List.length_cons]; omega
    rw [e] at h
    simpa [parseArgument.loop] using h

theorem parseArguments_loop_rules (compiler : RegexpCompiler) (arguments : List Value) :
    ∀ (i : Nat) (w0 w : lintStringRegexRule),
      parseArguments.loop compiler arguments i w0 = .ok w →
      ∃ rs : List stringRegexSubrule, w.rules = w0.rules ++ rs
        ∧ rs.length = arguments.length
        ∧ ∀ (j : Nat) (a : Value), arguments[j]? = some a →
            ∃ regex errorMessage,
              lintStringRegexRule.parseArgument compiler { rules := [] } a (i + j)
                = .ok (regex, errorMessage)
              ∧ rs[j]? = some { Regexp := regex, ErrorMessage := errorMessage } := by
  induction arguments with
  | nil =>
    intro i w0 w h
    simp only [parseArguments.loop, Except.ok.injEq] at h
    subst h
    exact ⟨[], by simp, rfl, by intro j a hj; simp at hj⟩
  | cons a rest ih =>
    intro i w0 w h
    cases hres : w0.parseArgument compiler a i with
    | error p => simp [parseArguments.loop, hres] at h
    | ok r =>
      obtain ⟨regex, errorMessage⟩ := r
      simp only [parseArguments.loop, hres] at h
      obtain ⟨rs, hrules, hlen, hget⟩ := ih (i + 1) _ w h
      refine ⟨{ Regexp := regex, ErrorMessage := errorMessage } :: rs, ?_, ?_, ?_⟩
      · simpa using hrules
      · simp [hlen]
      · intro j b hj
        cases j with
        | zero =>
          simp only [List.getElem?_cons_zero, Option.some.injEq] at hj
          subst hj
          exact ⟨regex, errorMessage, hres, by simp⟩
        | succ k =>
          simp only [List.getElem?_cons_succ] at hj
          obtain ⟨regex2, msg2, hp, hr⟩ := hget k b hj
          refine ⟨regex2, msg2, ?_, ?_⟩
          · have e : i + (k + 1) = i + 1 + k := by omega
            rw [e]; exact hp
          · simpa using hr

theorem parseArguments_loop_first_error (compiler : RegexpCompiler) (bad : Value)
    (later : List Value) (p : Panic) (good : List Value) :
    ∀ (i : Nat) (w0 : lintStringRegexRule),
      (∀ (k : Nat) (a : Value), good[k]? = some a →
        ∃ r, lintStringRegexRule.parseArgument compiler { rules := [] } a (i + k) = .ok r) →
      lintStringRegexRule.parseArgument compiler { rules := [] } bad (i + good.length)
        = .error p →
      parseArguments.loop compiler (good ++ bad :: later) i w0 = .error p := by
  induction good with
  | nil =>
    intro i w0 _ hbad
    have hb : w0.parseArgument compiler bad i = .error p := by
      simpa using hbad
    simp only [List.nil_append, parseArguments.loop, hb]
  | cons a rest ih =>
    intro i w0 hgood hbad
    obtain ⟨r, hr⟩ := hgood 0 a (by simp)
    have hr2 : w0.parseArgument compiler a i = .ok r := by simpa using hr
    have hrest : ∀ (k : Nat) (b : Value), rest[k]? = some b →
        ∃ r, lintStringRegexRule.parseArgument compiler { rules := [] } b (i + 1 + k)
          = .ok r := by
      intro k b hk
      have e : i + 1 + k = i + (k + 1) := by omega
      rw [e]
      exact hgood (k + 1) b (by simpa using hk)
    have hbad2 : lintStringRegexRule.parseArgument compiler { rules := [] } bad
        (i + 1 + rest.length) = .error p := by
      have e : i + 1 + rest.length = i + (a :: rest).length := by
        simp only [List.length_cons]; omega
      rw [e]; exact hbad
    simp only [List.cons_append, parseArguments.loop, hr2]
    exact ih (i + 1) _ hrest hbad2

theorem stripEnds_spec (p : GoString) (h : 2 ≤ p.length) :
    ∃ a b, p = a :: (stripEnds p ++ [b]) := by
  cases p with
  | nil => simp at h
  | cons a t =>
    have ht : t ≠ [] := by
      intro e
      subst e
      simp at h
    exact ⟨a, t.getLast ht, by simp [stripEnds, List.dropLast_append_getLast]⟩

theorem utf8EncodeChar_ascii (c : Char) (h : c.val ≤ 127) :
    String.utf8EncodeChar c = [c.val.toUInt8] := by
  simp [String.utf8EncodeChar, h]

theorem stripEnds_bytes_ascii (c d : Char) (mid : List Char)
    (hc : c.val ≤ 127) (hd : d.val ≤ 127) :
    stripEnds (bytes (String.mk (c :: (mid ++ [d])))) = bytes (String.mk mid) := by
  simp [stripEnds, bytes, utf8EncodeChar_ascii c hc, utf8EncodeChar_ascii d hd,
    List.flatMap_append]

/-! ## The rule compiled from one argument -/

/-- C11. When `parseArguments` succeeds from an empty rule list, the rule list has as
many rules as there are arguments, and the rule at index `i` is the one that
`parseArgument` compiles from the argument at index `i`. -/
theorem parseArguments_preserves_order (compiler : RegexpCompiler) (arguments : Arguments)
    (w : lintStringRegexRule)
    (h : lintStringRegexRule.parseArguments compiler { rules := [] } arguments = .ok w) :
    w.rules.length = arguments.length
    ∧ ∀ (i : Nat) (a : Value), arguments[i]? = some a →
        ∃ regex errorMessage,
          lintStringRegexRule.parseArgument compiler { rules := [] } a i
            = .ok (regex, errorMessage)
          ∧ w.rules[i]? = some { Regexp := regex, ErrorMessage := errorMessage } := by
  obtain ⟨rs, hrules, hlen, hget⟩ :=
    parseArguments_loop_rules compiler arguments 0 { rules := [] } w h
  have hrs : w.rules = rs := by simpa using hrules
  refine ⟨by rw [hrs, hlen], ?_⟩
  intro i a hi
  obtain ⟨regex, errorMessage, hp, hr⟩ := hget i a hi
  refine ⟨regex, errorMessage, ?_, by rw [hrs]; exact hr⟩
  simpa using hp

theorem parseArguments_preserves_order_witness :
    lintStringRegexRule.parseArguments goRegexp { rules := [] } scenarioArguments
      = .ok scenarioVisitor
    ∧ scenarioVisitor.rules.length = scenarioArguments.length
    ∧ ∀ (i : Nat) (a : Value), scenarioArguments[i]? = some a →
        ∃ regex errorMessage,
          lintStringRegexRule.parseArgument goRegexp { rules := [] } a i
            = .ok (regex, errorMessage)
          ∧ scenarioVisitor.rules[i]? = some { Regexp := regex, ErrorMessage := errorMessage } :=
  ⟨rfl, parseArguments_preserves_order goRegexp scenarioArguments scenarioVisitor rfl⟩

/-- C12. For a first string `p` of at least two bytes whose body compiles, the argument
`[p, m]` gives a rule whose custom message is exactly `m`, and the argument `[p]` gives a
rule without custom message, whose failure message has the default format. -/
theorem parseArgument_custom_message (compiler : RegexpCompiler) (w : lintStringRegexRule)
    (argNum : Nat) (p m : GoString) (prog : GoString → Bool)
    (hlen : 2 ≤ p.length) (hc : compiler (stripEnds p) = some prog) :
    w.parseArgument compiler (.slice [.string p, .string m]) argNum
      = .ok ({ expr := stripEnds p, prog := prog }, some m)
    ∧ w.parseArgument compiler (.slice [.string p]) argNum
      = .ok ({ expr := stripEnds p, prog := prog }, none)
    ∧ lintMessage.failure
        { Regexp := { expr := stripEnds p, prog := prog }, ErrorMessage := some m }
      = bytes "string literal doesn't match user defined regex (" ++ m ++ bytes ")"
    ∧ lintMessage.failure
        { Regexp := { expr := stripEnds p, prog := prog }, ErrorMessage := none }
      = bytes "string literal doesn't match user defined regex /" ++ stripEnds p ++ bytes "/" := by
  refine ⟨?_, ?_, rfl, rfl⟩
  · have := parseArgument_strings compiler w argNum p [m] prog hlen hc
    simpa using this
  · have := parseArgument_strings compiler w argNum p [] prog hlen hc
    simpa using this

theorem parseArgument_custom_message_witness :
    lintStringRegexRule.parseArgument goRegexp { rules := [] }
        (.slice [.string (bytes "/^[A-Z]/"),
                 .string (bytes "must start with a capital letter")]) 0
      = .ok (capitalRule.Regexp, some (bytes "must start with a capital letter"))
    ∧ lintStringRegexRule.parseArgument goRegexp { rules := [] }
        (.slice [.string (bytes "/^[A-Z]/")]) 0
      = .ok (capitalRule.Regexp, none) :=
  ⟨(parseArgument_custom_message goRegexp { rules := [] } 0 (bytes "/^[A-Z]/")
      (bytes "must start with a capital letter")
      (Re.matchBytes (.concat .beginText (.charClass false [(65, 90)])))
      (by decide) rfl).1,
   (parseArgument_custom_message goRegexp { rules := [] } 0 (bytes "/^[A-Z]/")
      (bytes "must start with a capital letter")
      (Re.matchBytes (.concat .beginText (.charClass false [(65, 90)])))
      (by decide) rfl).2.1⟩

set_option maxRecDepth 8000 in
/-- C13, counterexample. The first string `éabcé` has five characters and without its
first and last character it is `abc`, which compiles; the code drops one byte at each
end, gives the compiler the bytes `A9 61 62 63 C3`, which are not `abc`, and panics with
"unable to compile éabcé as regexp (argument 0, option 0)". -/
theorem parseArgument_cuts_multibyte_delimiter :
    "éabcé".length = 5
    ∧ stripChars "éabcé" = "abc"
    ∧ (goRegexp (bytes (stripChars "éabcé"))).isSome = true
    ∧ stripEnds (bytes "éabcé") = [169, 97, 98, 99, 195]
    ∧ stripEnds (bytes "éabcé") ≠ bytes (stripChars "éabcé")
    ∧ lintStringRegexRule.parseArgument goRegexp { rules := [] }
        (.slice [.string (bytes "éabcé")]) 0
      = .error (.message (bytes "unable to compile éabcé as regexp (argument 0, option 0)")) := by
  refine ⟨by decide, by decide, by decide, by decide, by decide, rfl⟩

/-- C13, amended. For a list of strings whose first string `p` has at least two bytes,
the pattern given to the regexp compiler is `stripEnds p`, that is `p` without exactly
its first and its last byte, whatever these two bytes are: the result of `parseArgument`
is determined by what the compiler answers on `stripEnds p`.  When the first and the
last character of `p` are ASCII characters, this is `p` without these two characters. -/
theorem parseArgument_compiles_stripped (compiler : RegexpCompiler) (w : lintStringRegexRule)
    (argNum : Nat) (p : GoString) (rest : List GoString) (hlen : 2 ≤ p.length) :
    w.parseArgument compiler (.slice ((p :: rest).map Value.string)) argNum
      = (match compiler (stripEnds p) with
        | none =>
          .error (.message (bytes "unable to compile " ++ p ++
            bytes " as regexp (argument " ++ itoa argNum ++ bytes ", option " ++
            itoa 0 ++ bytes ")"))
        | some prog =>
          .ok ({ expr := stripEnds p, prog := prog },
            if (p :: rest).length = 2 then (p :: rest)[1]? else none))
    ∧ (∃ first last, p = first :: (stripEnds p ++ [last]))
    ∧ (stripEnds p).length + 2 = p.length
    ∧ (∀ (c d : Char) (mid : List Char), p = bytes (String.mk (c :: (mid ++ [d]))) →
        c.val ≤ 127 → d.val ≤ 127 → stripEnds p = bytes (String.mk mid)) := by
  refine ⟨?_, stripEnds_spec p hlen, ?_, ?_⟩
  · cases hc : compiler (stripEnds p) with
    | none =>
      simp only [lintStringRegexRule.parseArgument, parseArgument_loop_strings,
        List.nil_append, sliceString_strip p hlen, regexp.Compile, hc]
    | some prog => exact parseArgument_strings compiler w argNum p rest prog hlen hc
  · obtain ⟨a, b, hp⟩ := stripEnds_spec p hlen
    have h := congrArg List.length hp
    simp only [List.length_cons, List.length_append, List.length_singleton,
      List.length_nil] at h
    omega
  · intro c d mid hp hc hd
    rw [hp]
    exact stripEnds_bytes_ascii c d mid hc hd

theorem parseArgument_compiles_stripped_witness :
    (2 ≤ (bytes "xabcx").length
      ∧ stripEnds (bytes "xabcx") = bytes "abc"
      ∧ stripEnds (bytes "/abc/") = bytes "abc"
      ∧ stripEnds (bytes "//") = [])
    ∧ (∃ prog, lintStringRegexRule.parseArgument goRegexp { rules := [] }
        (.slice [.string (bytes "xabcx")]) 0 = .ok ({ expr := bytes "abc", prog := prog }, none))
    ∧ (∃ prog, lintStringRegexRule.parseArgument goRegexp { rules := [] }
        (.slice [.string (bytes "/abc/")]) 0 = .ok ({ expr := bytes "abc", prog := prog }, none))
    ∧ (∃ prog, lintStringRegexRule.parseArgument goRegexp { rules := [] }
        (.slice [.string (bytes "//")]) 0 = .ok ({ expr := [], prog := prog }, none)) :=
  ⟨⟨by decide, by decide, by decide, by decide⟩,
   ⟨_, (parseArgument_compiles_stripped goRegexp { rules := [] } 0 (bytes "xabcx") []
      (by decide)).1⟩,
   ⟨_, rfl⟩, ⟨_, rfl⟩⟩

/-! ## Configuration errors -/

theorem parseArgument_short (compiler : RegexpCompiler) (w : lintStringRegexRule)
    (argNum : Nat) (p : GoString) (rest : List GoString) (h : p.length < 2) :
    w.parseArgument compiler (.slice ((p :: rest).map Value.string)) argNum
      = .error (.sliceBoundsOutOfRange 1 ((p.length : Int) - 1) p.length) := by
  simp only [lintStringRegexRule.parseArgument, parseArgument_loop_strings,
    List.nil_append, sliceString_short p h]

theorem parseArgument_uncompilable (compiler : RegexpCompiler) (w : lintStringRegexRule)
    (argNum : Nat) (p : GoString) (rest : List GoString) (hlen : 2 ≤ p.length)
    (hc : compiler (stripEnds p) = none) :
    w.parseArgument compiler (.slice ((p :: rest).map Value.string)) argNum
      = .error (.message (bytes "unable to compile " ++ p ++ bytes " as regexp (argument "
          ++ itoa argNum ++ bytes ", option 0)")) := by
  have e : bytes ", option 0)" = bytes ", option " ++ itoa 0 ++ bytes ")" := by decide
  simp only [lintStringRegexRule.parseArgument, parseArgument_loop_strings,
    List.nil_append, sliceString_strip p hlen, regexp.Compile, hc, e, List.append_assoc]

/-- C14. On a list of strings, `parseArgument` panics when the first string is empty and
when the compiler rejects the body of the first string; when the first string has a body
(at least two bytes) and the compiler rejects it, the panic message is
"unable to compile p as regexp (argument i, option 0)", with the first string `p` as
written and the index `i` of the argument. -/
theorem parseArgument_fails_on_empty_or_uncompilable :
    (∀ (compiler : RegexpCompiler) (w : lintStringRegexRule) (argNum : Nat)
        (rest : List GoString),
        ∃ e, w.parseArgument compiler (.slice (([] :: rest).map Value.string)) argNum
          = .error e)
    ∧ (∀ (compiler : RegexpCompiler) (w : lintStringRegexRule) (argNum : Nat)
        (p : GoString) (rest : List GoString), compiler (stripEnds p) = none →
        ∃ e, w.parseArgument compiler (.slice ((p :: rest).map Value.string)) argNum
          = .error e)
    ∧ (∀ (compiler : RegexpCompiler) (w : lintStringRegexRule) (argNum : Nat)
        (p : GoString) (rest : List GoString), 2 ≤ p.length →
        compiler (stripEnds p) = none →
        w.parseArgument compiler (.slice ((p :: rest).map Value.string)) argNum
          = .error (.message (bytes "unable to compile " ++ p ++
              bytes " as regexp (argument " ++ itoa argNum ++ bytes ", option 0)")))
    ∧ lintStringRegexRule.parseArgument goRegexp { rules := [] }
        (.slice [.string (bytes "/(/"), .string (bytes "balanced")]) 3
      = .error (.message (bytes "unable to compile /(/ as regexp (argument 3, option 0)")) := by
  refine ⟨?_, ?_, ?_, rfl⟩
  · intro compiler w argNum rest
    exact ⟨_, parseArgument_short compiler w argNum [] rest (by simp)⟩
  · intro compiler w argNum p rest hc
    by_cases hlen : 2 ≤ p.length
    · exact ⟨_, parseArgument_uncompilable compiler w argNum p rest hlen hc⟩
    · exact ⟨_, parseArgument_short compiler w argNum p rest (by omega)⟩
  · intro compiler w argNum p rest hlen hc
    exact parseArgument_uncompilable compiler w argNum p rest hlen hc

/-- C15. Two configuration errors are run-time panics that carry no argument index: an
empty list panics with "index out of range [0] with length 0", and a list of strings
whose first string has fewer than two bytes panics with "slice bounds out of range",
the same panic value at every argument index.  The other three errors are panics with a
message that names the argument index. -/
theorem parseArgument_runtime_panics_without_index :
    (∀ (compiler : RegexpCompiler) (w : lintStringRegexRule) (argNum : Nat),
        w.parseArgument compiler (.slice []) argNum = .error (.indexOutOfRange 0 0))
    ∧ (∀ (compiler : RegexpCompiler) (w : lintStringRegexRule) (argNum : Nat)
        (p : GoString) (rest : List GoString), p.length < 2 →
        w.parseArgument compiler (.slice ((p :: rest).map Value.string)) argNum
          = .error (.sliceBoundsOutOfRange 1 ((p.length : Int) - 1) p.length))
    ∧ lintStringRegexRule.parseArguments goRegexp { rules := [] }
        [.slice [.string (bytes "/a/")], .slice []] = .error (.indexOutOfRange 0 0)
    ∧ lintStringRegexRule.parseArguments goRegexp { rules := [] }
        [.slice [.string (bytes "/a/")], .slice [.string (bytes "/")]]
      = .error (.sliceBoundsOutOfRange 1 0 1)
    ∧ (∀ (compiler : RegexpCompiler) (w : lintStringRegexRule) (argNum : Nat),
        w.parseArgument compiler (.int 42) argNum
          = .error (.message (bytes "unable to parse argument " ++ itoa argNum))) := by
  refine ⟨fun _ _ _ => rfl, ?_, rfl, rfl, fun _ _ _ => rfl⟩
  intro compiler w argNum p rest h
  exact parseArgument_short compiler w argNum p rest h

/-- C16. `Visit` returns the visitor it was called on, never the nil visitor: on the nil
node, on a node that is not a basic literal and on a basic literal of another kind it
returns at once with the failures unchanged, and on a string literal (of at least two
bytes, as the parser builds them) it returns after `lintMessage`.  Whenever `Visit`
returns, the visitor returned is the receiver, with the same rules. -/
theorem Visit_returns_same_visitor :
    (∀ (w : lintStringRegexRule) (failures : List Failure),
        w.Visit none failures = .ok (some w, failures))
    ∧ (∀ (w : lintStringRegexRule) (id : Nat) (children : List Node)
        (failures : List Failure),
        w.Visit (some (.Other id children)) failures = .ok (some w, failures))
    ∧ (∀ (w : lintStringRegexRule) (pos : Nat) (kind : Token) (value : GoString)
        (failures : List Failure), kind ≠ .STRING →
        w.Visit (some (.BasicLit pos kind value)) failures = .ok (some w, failures))
    ∧ (∀ (w : lintStringRegexRule) (pos : Nat) (value : GoString)
        (failures : List Failure), 2 ≤ value.length →
        w.Visit (some (.BasicLit pos .STRING value)) failures
          = .ok (some w,
              w.lintMessage (stripEnds value) (.BasicLit pos .STRING value) failures))
    ∧ (∀ (w : lintStringRegexRule) (node : Option Node) (failures : List Failure)
        (v : Option lintStringRegexRule) (out : List Failure),
        w.Visit node failures = .ok (v, out) →
          v = some w ∧ (∀ u, v = some u → u.rules = w.rules)) := by
  refine ⟨Visit_nil, Visit_other, Visit_not_string, Visit_string, ?_⟩
  intro w node failures v out h
  have hv : v = some w := by
    cases node with
    | none =>
      rw [Visit_nil] at h
      cases h
      rfl
    | some n =>
      cases n with
      | Other id children =>
        rw [Visit_other] at h
        cases h
        rfl
      | BasicLit pos kind value =>
        by_cases hk : kind = .STRING
        · subst hk
          by_cases hlen : 2 ≤ value.length
          · rw [Visit_string w pos value failures hlen] at h
            cases h
            rfl
          · simp only [lintStringRegexRule.Visit, sliceString_short value (by omega)] at h
            cases h
        · rw [Visit_not_string w pos kind value failures hk] at h
          cases h
          rfl
  refine ⟨hv, ?_⟩
  intro u hu
  rw [hv] at hu
  cases hu
  rfl

/-- C17. For a list of three or more strings whose first string has at least two bytes
and a body that compiles, `parseArgument` succeeds with the rule of the first string and
no custom message: the second string is not the message and the result is the one of the
list of the first string alone. -/
theorem parseArgument_three_or_more_strings (compiler : RegexpCompiler)
    (w : lintStringRegexRule) (argNum : Nat) (p m x : GoString) (rest : List GoString)
    (prog : GoString → Bool) (hlen : 2 ≤ p.length) (hc : compiler (stripEnds p) = some prog) :
    w.parseArgument compiler (.slice ((p :: m :: x :: rest).map Value.string)) argNum
      = .ok ({ expr := stripEnds p, prog := prog }, none)
    ∧ w.parseArgument compiler (.slice ((p :: m :: x :: rest).map Value.string)) argNum
      = w.parseArgument compiler (.slice [.string p]) argNum := by
  have h3 := parseArgument_strings compiler w argNum p (m :: x :: rest) prog hlen hc
  have h1 := parseArgument_strings compiler w argNum p [] prog hlen hc
  have e3 : ¬ (p :: m :: x :: rest).length = 2 := by simp
  have e1 : ¬ ([p] : List GoString).length = 2 := by simp
  rw [if_neg e3] at h3
  rw [if_neg e1] at h1
  exact ⟨h3, by rw [h3]; exact h1.symm⟩

theorem parseArgument_three_or_more_strings_witness :
    lintStringRegexRule.parseArgument goRegexp { rules := [] }
        (.slice [.string (bytes "/^[A-Z]/"), .string (bytes "must start with a capital letter"),
                 .string (bytes "third")]) 0
      = .ok (capitalRule.Regexp, none) :=
  (parseArgument_three_or_more_strings goRegexp { rules := [] } 0 (bytes "/^[A-Z]/")
    (bytes "must start with a capital letter") (bytes "third") []
    (Re.matchBytes (.concat .beginText (.charClass false [(65, 90)])))
    (by decide) rfl).1

/-- C18. `parseArguments` fails with the panic of the first argument that `parseArgument`
rejects, whatever the arguments after it; and in a list whose first element that is not
a string is at index `j`, `parseArgument` panics with
"unable to parse argument i, option j" whatever the compiler, so `["/(/", 42]` fails with
"unable to parse argument i, option 1" and the regexp is never compiled. -/
theorem parseArguments_error_precedence (compiler : RegexpCompiler)
    (w : lintStringRegexRule) (good : List Value) (bad : Value) (later : List Value)
    (p : Panic)
    (hgood : ∀ (k : Nat) (a : Value), good[k]? = some a →
      ∃ r, lintStringRegexRule.parseArgument compiler { rules := [] } a k = .ok r)
    (hbad : lintStringRegexRule.parseArgument compiler { rules := [] } bad good.length
      = .error p) :
    w.parseArguments compiler (good ++ bad :: later) = .error p
    ∧ (∀ (i : Nat) (strs : List GoString) (v : Value) (rest : List Value),
        v.isString = false →
        w.parseArgument compiler (.slice (strs.map Value.string ++ v :: rest)) i
          = .error (.message (bytes "unable to parse argument " ++ itoa i ++
              bytes ", option " ++ itoa strs.length)))
    ∧ (∀ i : Nat,
        w.parseArgument compiler (.slice [.string (bytes "/(/"), .int 42]) i
          = .error (.message (bytes "unable to parse argument " ++ itoa i ++
              bytes ", option 1"))) := by
  have hfirst : ∀ (i : Nat) (strs : List GoString) (v : Value) (rest : List Value),
      v.isString = false →
      w.parseArgument compiler (.slice (strs.map Value.string ++ v :: rest)) i
        = .error (.message (bytes "unable to parse argument " ++ itoa i ++
            bytes ", option " ++ itoa strs.length)) := by
    intro i strs v rest hv
    have h := parseArgument_loop_first_non_string i v rest hv strs 0 []
    rw [Nat.zero_add] at h
    simp only [lintStringRegexRule.parseArgument, h]
  refine ⟨?_, hfirst, ?_⟩
  · have h := parseArguments_loop_first_error compiler bad later p good 0 w
      (by simpa using hgood) (by simpa using hbad)
    exact h
  · intro i
    have h := hfirst i [bytes "/(/"] (.int 42) [] rfl
    have e : itoa ([bytes "/(/"] : List GoString).length = bytes "1" := by decide
    rw [e] at h
    simpa [List.append_assoc] using h

theorem parseArguments_error_precedence_witness :
    lintStringRegexRule.parseArguments goRegexp { rules := [] }
        ([.slice [.string (bytes "/^[A-Z]/")]]
          ++ .slice [.string (bytes "/(/"), .int 42] :: [.int 7, .slice []])
      = .error (.message (bytes "unable to parse argument 1, option 1")) :=
  (parseArguments_error_precedence goRegexp { rules := [] }
    [.slice [.string (bytes "/^[A-Z]/")]] (.slice [.string (bytes "/(/"), .int 42])
    [.int 7, .slice []] (.message (bytes "unable to parse argument 1, option 1"))
    (by
      intro k a hk
      cases k with
      | zero =>
        simp only [List.getElem?_cons_zero, Option.some.injEq] at hk
        subst hk
        exact ⟨_, rfl⟩
      | succ n => simp at hk)
    rfl).1

/-- C19. On a list of strings whose first string has exactly one byte, `parseArgument`
panics with "slice bounds out of range [1:0]", whatever the compiler, also one that
compiles the empty pattern; and the slice `p[1 : len(p)-1]` succeeds exactly when `p` has
at least two bytes. -/
theorem parseArgument_one_byte_pattern_panics :
    (∀ (compiler : RegexpCompiler) (w : lintStringRegexRule) (argNum : Nat)
        (p : GoString) (rest : List GoString), p.length = 1 →
        w.parseArgument compiler (.slice ((p :: rest).map Value.string)) argNum
          = .error (.sliceBoundsOutOfRange 1 0 1))
    ∧ (∀ p : GoString,
        (∃ body, sliceString p 1 ((p.length : Int) - 1) = .ok body) ↔ 2 ≤ p.length)
    ∧ (goRegexp []).isSome = true
    ∧ lintStringRegexRule.parseArgument goRegexp { rules := [] }
        (.slice [.string (bytes "/")]) 0 = .error (.sliceBoundsOutOfRange 1 0 1) := by
  refine ⟨?_, ?_, by decide, rfl⟩
  · intro compiler w argNum p rest hp
    have h := parseArgument_short compiler w argNum p rest (by omega)
    rw [hp] at h
    simpa using h
  · intro p
    constructor
    · rintro ⟨body, hbody⟩
      by_contra hlt
      rw [sliceString_short p (by omega)] at hbody
      cases hbody
    · intro h
      exact ⟨_, sliceString_strip p h⟩

end Revive
